import Mathlib

/-!
Error code codec (`main.go`)

A shallow embedding of the four functions of `main.go`:

* `getErrorCode`            packs service / category / subcode into one `uint32`;
* `decodeErrorCode`         unpacks a `uint32` into the three fields;
* `errorCodeToStr`          renders a code with `fmt.Sprintf("%03X.%02X.%03X", ...)`;
* `strErrorCodeToErrorCode` splits on `.`, parses each part with `strconv.ParseUint`
                            and packs the result again.

Machine integers are natural numbers; every place where Go truncates (a conversion to a
narrower type, a shift in `uint32`) carries an explicit `% 2 ^ w`.  Theorems about values
of a Go type `uintW` take the bound `x < 2 ^ W` as a hypothesis.
-/

namespace ErrorCodes

/-! ## Machine integers -/

/-- Conversion `uint32(x)`: keep the low 32 bits. -/
def uint32 (x : Nat) : Nat := x % 2 ^ 32

/-- Conversion `uint16(x)`: keep the low 16 bits. -/
def uint16 (x : Nat) : Nat := x % 2 ^ 16

/-- Conversion `byte(x)`: keep the low 8 bits. -/
def byte (x : Nat) : Nat := x % 2 ^ 8

/-- Left shift of a `uint32` operand: bits moved past bit 31 are dropped. -/
def shl32 (x k : Nat) : Nat := (x <<< k) % 2 ^ 32

/-! ## `getErrorCode` and `decodeErrorCode` -/

/-- Embedding of `getErrorCode(serviceName uint16, generalErrorCode byte, subErrorCode uint16)`:
start from the zero value of `errorCode` and OR in the three widened operands. -/
def getErrorCode (serviceName generalErrorCode subErrorCode : Nat) : Nat :=
  let errorCode := 0
  let errorCode := errorCode ||| shl32 (uint32 serviceName) 20
  let errorCode := errorCode ||| shl32 (uint32 generalErrorCode) 12
  let errorCode := errorCode ||| uint32 subErrorCode
  errorCode

/-- The literal `1044480` that `decodeErrorCode` uses to select the category bits. -/
def categoryMask : Nat := 1044480

/-- Embedding of `decodeErrorCode(errorCode uint32) (uint16, byte, uint16)`. -/
def decodeErrorCode (errorCode : Nat) : Nat × Nat × Nat :=
  let serviceName := uint16 (errorCode >>> 20)
  let generalErrorCode := byte ((errorCode &&& categoryMask) >>> 12)
  let subErrorCode := uint16 (errorCode &&& 4095)
  (serviceName, generalErrorCode, subErrorCode)

/-! ## `errorCodeToStr`: the verbs `%03X` and `%02X` of `fmt.Sprintf` -/

/-- The digit table `"0123456789ABCDEF"` that `fmt` indexes for the verb `X`. -/
def udigits : List Char :=
  ['0', '1', '2', '3', '4', '5', '6', '7', '8', '9', 'A', 'B', 'C', 'D', 'E', 'F']

/-- Table lookup `udigits[d]`, for `d < 16`. -/
def hexDigit (d : Nat) : Char := udigits.getD d '0'

/-- The digit loop of `fmt` for base 16,
`for u >= 16 { i--; buf[i] = digits[u&0xF]; u >>= 4 }; i--; buf[i] = digits[u]`,
writing the digits of `u` in front of `buf`.  The first argument bounds the number of
iterations; `u` itself is always enough, since `u >>> 4 < u` when `16 ≤ u`. -/
def fmtHexLoop : Nat → Nat → List Char → List Char
  | 0, u, buf => hexDigit u :: buf
  | fuel + 1, u, buf =>
    if 16 ≤ u then fmtHexLoop fuel (u >>> 4) (hexDigit (u &&& 0xF) :: buf)
    else hexDigit u :: buf

/-- Zero padding of `fmt` under the flag `0` with a width: digits are added in front until
the width is reached; a longer rendering is left as it is. -/
def padZeros (width : Nat) (digits : List Char) : List Char :=
  List.replicate (width - digits.length) '0' ++ digits

/-- The verb `%0wX` applied to an unsigned integer `u`. -/
def fmtHex (width u : Nat) : List Char :=
  padZeros width (fmtHexLoop u u [])

/-- Embedding of `errorCodeToStr(errorCode uint32) string`. -/
def errorCodeToStr (errorCode : Nat) : String :=
  let (serviceName, generalErrorCode, subErrorCode) := decodeErrorCode errorCode
  String.mk (fmtHex 3 serviceName ++ '.' :: (fmtHex 2 generalErrorCode
    ++ '.' :: fmtHex 3 subErrorCode))

/-! ## `strErrorCodeToErrorCode`: `strings.Split` and `strconv.ParseUint` -/

/-- Model of `strings.Split(s, ".")`: the pieces of `s` between the occurrences of `.`; a string
without a `.` (the empty one included) gives exactly one piece.  A `.` is a single byte
that never occurs inside a multi-byte character, so splitting characters and splitting
bytes agree. -/
def splitDot : List Char → List (List Char)
  | [] => [[]]
  | c :: cs =>
    if c = '.' then [] :: splitDot cs
    else
      match splitDot cs with
      | [] => [[c]]
      | p :: ps => (c :: p) :: ps

/-- The two errors of `strconv.ParseUint`: `ErrSyntax` and `ErrRange`. -/
inductive NumError where
  | SyntaxError
  | RangeError
  deriving DecidableEq, Repr

/-- Digit value of one byte in `strconv.ParseUint`: `c - '0'` for `'0'..'9'`,
`lower(c) - 'a' + 10` for a letter, where `lower(c) = c | ('x' - 'X')`; no value for
anything else (every byte of a non-ASCII character is in that last case). -/
def digitVal (c : Char) : Option Nat :=
  let b := c.toNat
  if 48 ≤ b ∧ b ≤ 57 then some (b - 48)
  else if 97 ≤ (b ||| 32) ∧ (b ||| 32) ≤ 122 then some ((b ||| 32) - 97 + 10)
  else none

/-- The cutoff of `strconv.ParseUint` for base 16: `maxUint64/16 + 1`. -/
def cutoff16 : Nat := (2 ^ 64 - 1) / 16 + 1

/-- The loop of `strconv.ParseUint(s, 16, bitSize)` over the bytes of `s`, with the
accumulator `n` (a `uint64`) and `maxVal = 1<<bitSize - 1`. -/
def parseUintLoop (maxVal : Nat) : Nat → List Char → Nat × Option NumError
  | n, [] => (n, none)
  | n, c :: cs =>
    match digitVal c with
    | none => (0, some NumError.SyntaxError)
    | some d =>
      if 16 ≤ d then (0, some NumError.SyntaxError)
      else if cutoff16 ≤ n then (maxVal, some NumError.RangeError)
      else
        let n := (n * 16) % 2 ^ 64
        let n1 := (n + d) % 2 ^ 64
        if n1 < n ∨ maxVal < n1 then (maxVal, some NumError.RangeError)
        else parseUintLoop maxVal n1 cs

/-- Model of `strconv.ParseUint(s, 16, bitSize)` for `0 < bitSize ≤ 64`: an empty string is
a syntax error; the result is the value together with the error, if any. -/
def parseUintHex (s : List Char) (bitSize : Nat) : Nat × Option NumError :=
  if s = [] then (0, some NumError.SyntaxError)
  else parseUintLoop (2 ^ bitSize - 1) 0 s

/-- Indexing `parts[i]` of a slice: `none` stands for the run-time panic
`index out of range`. -/
def index (parts : List (List Char)) (i : Nat) : Option (List Char) := parts.get? i

/-- Embedding of `strErrorCodeToErrorCode(strErrorCode string) uint32`.  The error results
of `ParseUint` are discarded as in the source; `none` is the run-time panic of an index
out of range, the only way the function fails to return. -/
def strErrorCodeToErrorCode (strErrorCode : String) : Option Nat := do
  let parts := splitDot strErrorCode.data
  let serviceName := (parseUintHex (← index parts 0) 16).1
  let generalErrorCode := (parseUintHex (← index parts 1) 8).1
  let subErrorCode := (parseUintHex (← index parts 2) 16).1
  pure (getErrorCode (uint16 serviceName) (byte generalErrorCode) (uint16 subErrorCode))

/-! ## The textual layout as the specification words it -/

/-- Uppercase hexadecimal digit of a value `d < 16`, by code point: `'0' + d` below ten,
`'A' + (d - 10)` from ten on. -/
def upperHexDigit (d : Nat) : Char :=
  if d < 10 then Char.ofNat (48 + d) else Char.ofNat (55 + d)

/-- A character of the class `0-9A-F`. -/
def isUpperHexChar (c : Char) : Bool :=
  (48 ≤ c.toNat && c.toNat ≤ 57) || (65 ≤ c.toNat && c.toNat ≤ 70)

/-- The display form `XXX.XX.XXX` of a triple of fields: service on three digits, category
on two, subcode on three, most significant digit first, with a `.` between the groups. -/
def displayForm (service category subcode : Nat) : List Char :=
  [upperHexDigit (service / 256), upperHexDigit (service / 16 % 16),
    upperHexDigit (service % 16), '.',
    upperHexDigit (category / 16), upperHexDigit (category % 16), '.',
    upperHexDigit (subcode / 256), upperHexDigit (subcode / 16 % 16),
    upperHexDigit (subcode % 16)]

/-! ## Hexadecimal literals as the specification words them -/

/-- A hexadecimal digit in either case: `0-9`, `A-F` or `a-f`. -/
def isHexChar (c : Char) : Bool :=
  (48 ≤ c.toNat && c.toNat ≤ 57) || (65 ≤ c.toNat && c.toNat ≤ 70)
    || (97 ≤ c.toNat && c.toNat ≤ 102)

/-- Value of a hexadecimal digit: `0-9` count from 0, `A-F` and `a-f` from 10. -/
def hexCharValue (c : Char) : Nat :=
  if c.toNat ≤ 57 then c.toNat - 48
  else if c.toNat ≤ 70 then c.toNat - 55
  else c.toNat - 87

/-- Base-16 value of the digits `s` read after a prefix of value `n`. -/
def hexValueFrom (n : Nat) (s : List Char) : Nat :=
  s.foldl (fun acc c => acc * 16 + hexCharValue c) n

/-- Base-16 value of a sequence of hexadecimal digits, most significant first. -/
def hexValue (s : List Char) : Nat := hexValueFrom 0 s

/-- The value that stands for one segment of the string form in a field of `bitSize` bits:
the largest value of the field when the leading hexadecimal digits already exceed it (a
literal too large for the width), else `0` when the segment is empty or holds a character
that is no hexadecimal digit, else the base-16 value of the segment. -/
def segmentValue (bitSize : Nat) (seg : List Char) : Nat :=
  if 2 ^ bitSize - 1 < hexValue (seg.takeWhile isHexChar) then 2 ^ bitSize - 1
  else if seg.isEmpty || !seg.all isHexChar then 0
  else hexValue seg

/-- Byte-wise lexicographic order on strings: `s` precedes `t` when `s` is a proper prefix
of `t` or holds the smaller byte at the first index where they differ.  On ASCII text,
which is all that `errorCodeToStr` produces, bytes are characters. -/
def bytesLt : List Char → List Char → Bool
  | [], [] => false
  | [], _ :: _ => true
  | _ :: _, [] => false
  | a :: s, b :: t =>
    decide (a.toNat < b.toNat) || (decide (a.toNat = b.toNat) && bytesLt s t)

/-! ## Bit arithmetic -/

theorem or_mod_two_pow (a b n : Nat) : (a ||| b) % 2 ^ n = a % 2 ^ n ||| b % 2 ^ n := by
  apply Nat.eq_of_testBit_eq
  intro i
  simp only [Nat.testBit_mod_two_pow, Nat.testBit_or, Bool.and_or_distrib_left]

theorem getErrorCode_eq (service category subcode : Nat)
    (hs : service < 2 ^ 16) (hc : category < 2 ^ 8) :
    getErrorCode service category subcode
      = ((service <<< 20) ||| (category <<< 12) ||| subcode) % 2 ^ 32 := by
  have h1 : service % 2 ^ 32 = service := Nat.mod_eq_of_lt (by omega)
  have h2 : category % 2 ^ 32 = category := Nat.mod_eq_of_lt (by omega)
  simp only [getErrorCode, shl32, uint32, Nat.zero_or, or_mod_two_pow, h1, h2]

theorem testBit_categoryMask (i : Nat) : categoryMask.testBit i = decide (12 ≤ i ∧ i < 20) := by
  have h : categoryMask = (2 ^ 8 - 1) <<< 12 := by decide
  rw [h, Nat.testBit_shiftLeft, Nat.testBit_two_pow_sub_one]
  by_cases h1 : 12 ≤ i <;> by_cases h2 : i < 20 <;> simp [h1, h2] <;> omega

theorem and_mask_shift (code : Nat) : (code &&& categoryMask) >>> 12 = (code >>> 12) &&& 0xFF := by
  apply Nat.eq_of_testBit_eq
  intro i
  have h : (0xFF : Nat) = 2 ^ 8 - 1 := by decide
  rw [Nat.testBit_shiftRight, Nat.testBit_and, Nat.testBit_and, testBit_categoryMask,
    Nat.testBit_shiftRight, h, Nat.testBit_two_pow_sub_one]
  congr 1
  simp
  omega

theorem decodeErrorCode_divmod (code : Nat) (h : code < 2 ^ 32) :
    decodeErrorCode code = (code / 2 ^ 20, code / 2 ^ 12 % 2 ^ 8, code % 2 ^ 12) := by
  have e1 : (0xFF : Nat) = 2 ^ 8 - 1 := by decide
  have e2 : (4095 : Nat) = 2 ^ 12 - 1 := by decide
  unfold decodeErrorCode
  rw [and_mask_shift, e1, e2]
  simp only [uint16, byte, Nat.and_pow_two_sub_one_eq_mod, Nat.shiftRight_eq_div_pow]
  refine Prod.ext ?_ (Prod.ext ?_ ?_) <;> simp only <;> omega

theorem shift_or_eq_add (service category subcode : Nat)
    (hc : category < 2 ^ 8) (hsub : subcode < 2 ^ 12) :
    (service <<< 20) ||| (category <<< 12) ||| subcode
      = service * 2 ^ 20 + category * 2 ^ 12 + subcode := by
  have h1 : 2 ^ 12 * (2 ^ 8 * service + category) + subcode
      = 2 ^ 12 * (2 ^ 8 * service + category) ||| subcode := Nat.mul_add_lt_is_or hsub _
  have h2 : 2 ^ 8 * service + category = 2 ^ 8 * service ||| category :=
    Nat.mul_add_lt_is_or hc _
  have h3 : service * 2 ^ 20 ||| category * 2 ^ 12
      = 2 ^ 12 * (2 ^ 8 * service ||| category) := by
    rw [← h2, Nat.mul_comm service,
      ← Nat.mul_add_lt_is_or (show category * 2 ^ 12 < 2 ^ 20 by omega) service]
    omega
  rw [Nat.shiftLeft_eq, Nat.shiftLeft_eq, h3, ← h2, ← h1]
  omega

theorem getErrorCode_add (service category subcode : Nat)
    (hs : service < 2 ^ 12) (hc : category < 2 ^ 8) (hsub : subcode < 2 ^ 12) :
    getErrorCode service category subcode
      = service * 2 ^ 20 + category * 2 ^ 12 + subcode := by
  rw [getErrorCode_eq service category subcode (by omega) hc,
    shift_or_eq_add service category subcode hc hsub]
  exact Nat.mod_eq_of_lt (by omega)

theorem decodeErrorCode_lt (code : Nat) (h : code < 2 ^ 32) :
    (decodeErrorCode code).1 < 4096 ∧ (decodeErrorCode code).2.1 < 256
      ∧ (decodeErrorCode code).2.2 < 4096 := by
  rw [decodeErrorCode_divmod code h]
  simp only
  omega

theorem getErrorCode_spill (service category subcode : Nat)
    (hs : service < 2 ^ 16) (hc : category < 2 ^ 8) (hsub : subcode < 2 ^ 16) :
    getErrorCode service category subcode
      = getErrorCode (service % 4096) (category ||| subcode >>> 12) (subcode % 4096) := by
  have hq : subcode >>> 12 < 2 ^ 8 := by
    rw [Nat.shiftRight_eq_div_pow]; omega
  have hc2 : category ||| subcode >>> 12 < 2 ^ 8 := Nat.or_lt_two_pow hc hq
  rw [getErrorCode_eq service category subcode hs hc,
    getErrorCode_eq (service % 4096) _ (subcode % 4096) (by omega) hc2]
  apply Nat.eq_of_testBit_eq
  intro i
  have e : (4096 : Nat) = 2 ^ 12 := by decide
  simp only [e, Nat.testBit_mod_two_pow, Nat.testBit_or, Nat.testBit_shiftLeft,
    Nat.testBit_shiftRight]
  by_cases h32 : i < 32
  · by_cases h20 : 20 ≤ i
    · have a1 : 12 ≤ i := by omega
      have a2 : ¬ (i < 12) := by omega
      have a3 : i - 20 < 12 := by omega
      have a4 : 12 + (i - 12) = i := by omega
      simp [h32, h20, a1, a2, a3, a4, Bool.or_assoc]
    · by_cases h12 : 12 ≤ i
      · have a2 : ¬ (i < 12) := by omega
        have a4 : 12 + (i - 12) = i := by omega
        simp [h32, h20, h12, a2, a4, Bool.or_assoc]
      · have a2 : i < 12 := by omega
        simp [h32, h20, h12, a2]
  · simp [h32]

theorem decode_getErrorCode_inrange (service category subcode : Nat)
    (hs : service < 2 ^ 12) (hc : category < 2 ^ 8) (hsub : subcode < 2 ^ 12) :
    decodeErrorCode (getErrorCode service category subcode)
      = (service, category, subcode) := by
  rw [getErrorCode_add service category subcode hs hc hsub,
    decodeErrorCode_divmod _ (by omega)]
  refine Prod.ext ?_ (Prod.ext ?_ ?_) <;> simp only <;> omega

theorem decode_getErrorCode_spill (service category subcode : Nat)
    (hs : service < 2 ^ 16) (hc : category < 2 ^ 8) (hsub : subcode < 2 ^ 16) :
    decodeErrorCode (getErrorCode service category subcode)
      = (service % 4096, category ||| subcode >>> 12, subcode % 4096) := by
  have hq : subcode >>> 12 < 2 ^ 8 := by
    rw [Nat.shiftRight_eq_div_pow]; omega
  rw [getErrorCode_spill service category subcode hs hc hsub]
  exact decode_getErrorCode_inrange _ _ _ (by omega) (Nat.or_lt_two_pow hc hq) (by omega)

/-! ## Formatting and parsing -/

theorem fmtHexLoop_small (fuel u : Nat) (buf : List Char) (h : u < 16) :
    fmtHexLoop fuel u buf = hexDigit u :: buf := by
  cases fuel with
  | zero => rfl
  | succ f => simp only [fmtHexLoop, if_neg (Nat.not_le.mpr h)]

theorem fmtHexLoop_step (fuel u : Nat) (buf : List Char) (h : 16 ≤ u) :
    fmtHexLoop (fuel + 1) u buf = fmtHexLoop fuel (u / 16) (hexDigit (u % 16) :: buf) := by
  have e : (0xF : Nat) = 2 ^ 4 - 1 := by decide
  simp only [fmtHexLoop, if_pos h, e, Nat.and_pow_two_sub_one_eq_mod,
    Nat.shiftRight_eq_div_pow]

/-- The bound on the iterations is immaterial once it reaches `u`: the loop has finished
before it is used up. -/
theorem fmtHexLoop_fuel (f1 : Nat) : ∀ (f2 u : Nat) (buf : List Char), u ≤ f1 → u ≤ f2 →
    fmtHexLoop f1 u buf = fmtHexLoop f2 u buf := by
  induction f1 with
  | zero =>
    intro f2 u buf h1 _
    rw [fmtHexLoop_small 0 u buf (by omega), fmtHexLoop_small f2 u buf (by omega)]
  | succ f ih =>
    intro f2 u buf h1 h2
    by_cases hu : u < 16
    · rw [fmtHexLoop_small _ u buf hu, fmtHexLoop_small _ u buf hu]
    · obtain ⟨g, rfl⟩ : ∃ g, f2 = g + 1 := ⟨f2 - 1, by omega⟩
      rw [fmtHexLoop_step _ _ _ (by omega), fmtHexLoop_step _ _ _ (by omega)]
      exact ih g (u / 16) _ (by omega) (by omega)

theorem fmtHex_three (n : Nat) (h : n < 4096) :
    fmtHex 3 n = [hexDigit (n / 256), hexDigit (n / 16 % 16), hexDigit (n % 16)] := by
  unfold fmtHex
  by_cases h1 : n < 16
  · rw [fmtHexLoop_small _ _ _ h1]
    have e1 : n / 256 = 0 := by omega
    have e2 : n / 16 % 16 = 0 := by omega
    have e3 : n % 16 = n := by omega
    rw [e1, e2, e3]; rfl
  · by_cases h2 : n < 256
    · obtain ⟨f, rfl⟩ : ∃ f, n = f + 1 := ⟨n - 1, by omega⟩
      rw [fmtHexLoop_step _ _ _ (by omega), fmtHexLoop_small _ _ _ (by omega)]
      have e1 : (f + 1) / 256 = 0 := by omega
      have e2 : (f + 1) / 16 % 16 = (f + 1) / 16 := by omega
      rw [e1, e2]; rfl
    · obtain ⟨f, rfl⟩ : ∃ f, n = f + 2 := ⟨n - 2, by omega⟩
      rw [fmtHexLoop_step _ _ _ (by omega), fmtHexLoop_step _ _ _ (by omega),
        fmtHexLoop_small _ _ _ (by omega)]
      have e1 : (f + 2) / 16 / 16 = (f + 2) / 256 := by omega
      rw [e1]; rfl

theorem fmtHex_two (n : Nat) (h : n < 256) :
    fmtHex 2 n = [hexDigit (n / 16), hexDigit (n % 16)] := by
  unfold fmtHex
  by_cases h1 : n < 16
  · rw [fmtHexLoop_small _ _ _ h1]
    have e1 : n / 16 = 0 := by omega
    have e3 : n % 16 = n := by omega
    rw [e1, e3]; rfl
  · obtain ⟨f, rfl⟩ : ∃ f, n = f + 1 := ⟨n - 1, by omega⟩
    rw [fmtHexLoop_step _ _ _ (by omega), fmtHexLoop_small _ _ _ (by omega)]
    rfl


theorem hexDigit_ne_dot : ∀ d, d < 16 → hexDigit d ≠ '.' := by decide

theorem digitVal_hexDigit : ∀ d, d < 16 → digitVal (hexDigit d) = some d := by decide

theorem splitDot_hex_cons (d : Nat) (hd : d < 16) (cs : List Char) (p : List Char)
    (ps : List (List Char)) (h : splitDot cs = p :: ps) :
    splitDot (hexDigit d :: cs) = (hexDigit d :: p) :: ps := by
  simp only [splitDot, if_neg (hexDigit_ne_dot d hd), h]

theorem splitDot_dot_cons (cs : List Char) : splitDot ('.' :: cs) = [] :: splitDot cs := by
  simp only [splitDot, if_true]

theorem parseUintLoop_hex (maxVal n d : Nat) (cs : List Char) (hd : d < 16)
    (h : n * 16 + d ≤ maxVal) (hm : maxVal < 2 ^ 64) :
    parseUintLoop maxVal n (hexDigit d :: cs) = parseUintLoop maxVal (n * 16 + d) cs := by
  have h1 : ¬ (16 ≤ d) := by omega
  have h2 : ¬ (cutoff16 ≤ n) := by
    have : cutoff16 = 2 ^ 60 := by decide
    omega
  have h3 : (n * 16) % 2 ^ 64 = n * 16 := Nat.mod_eq_of_lt (by omega)
  have h4 : (n * 16 + d) % 2 ^ 64 = n * 16 + d := Nat.mod_eq_of_lt (by omega)
  have h5 : ¬ (n * 16 + d < n * 16 ∨ maxVal < n * 16 + d) := by omega
  simp only [parseUintLoop, digitVal_hexDigit d hd, if_neg h1, if_neg h2, h3, h4, if_neg h5]

theorem parseUintHex_three (a b c : Nat) (ha : a < 16) (hb : b < 16) (hc : c < 16) :
    parseUintHex [hexDigit a, hexDigit b, hexDigit c] 16 = (a * 256 + b * 16 + c, none) := by
  unfold parseUintHex
  rw [if_neg (by simp), parseUintLoop_hex _ _ _ _ ha (by omega) (by decide),
    parseUintLoop_hex _ _ _ _ hb (by omega) (by decide),
    parseUintLoop_hex _ _ _ _ hc (by omega) (by decide)]
  simp only [parseUintLoop, Prod.mk.injEq, and_true]
  omega

theorem parseUintHex_two (a b : Nat) (ha : a < 16) (hb : b < 16) :
    parseUintHex [hexDigit a, hexDigit b] 8 = (a * 16 + b, none) := by
  unfold parseUintHex
  rw [if_neg (by simp), parseUintLoop_hex _ _ _ _ ha (by omega) (by decide),
    parseUintLoop_hex _ _ _ _ hb (by omega) (by decide)]
  simp only [parseUintLoop, Prod.mk.injEq, and_true]
  omega


theorem errorCodeToStr_data (code : Nat) (h : code < 2 ^ 32) :
    (errorCodeToStr code).data
      = [hexDigit (code / 2 ^ 20 / 256), hexDigit (code / 2 ^ 20 / 16 % 16),
          hexDigit (code / 2 ^ 20 % 16), '.',
          hexDigit (code / 2 ^ 12 % 2 ^ 8 / 16), hexDigit (code / 2 ^ 12 % 2 ^ 8 % 16), '.',
          hexDigit (code % 2 ^ 12 / 256), hexDigit (code % 2 ^ 12 / 16 % 16),
          hexDigit (code % 2 ^ 12 % 16)] := by
  unfold errorCodeToStr
  rw [decodeErrorCode_divmod code h]
  simp only
  rw [fmtHex_three _ (by omega), fmtHex_two _ (by omega), fmtHex_three _ (by omega)]
  rfl

theorem splitDot_hex_one (d : Nat) (hd : d < 16) :
    splitDot [hexDigit d] = [[hexDigit d]] :=
  splitDot_hex_cons d hd [] [] [] rfl

theorem splitDot_display (a b c d e f g k : Nat) (ha : a < 16) (hb : b < 16) (hc : c < 16)
    (hd : d < 16) (he : e < 16) (hf : f < 16) (hg : g < 16) (hk : k < 16) :
    splitDot [hexDigit a, hexDigit b, hexDigit c, '.', hexDigit d, hexDigit e, '.',
        hexDigit f, hexDigit g, hexDigit k]
      = [[hexDigit a, hexDigit b, hexDigit c], [hexDigit d, hexDigit e],
          [hexDigit f, hexDigit g, hexDigit k]] := by
  have h3 := splitDot_hex_cons f hf _ _ _ (splitDot_hex_cons g hg _ _ _ (splitDot_hex_one k hk))
  have h2 := splitDot_hex_cons d hd _ _ _
    (splitDot_hex_cons e he _ _ _ ((splitDot_dot_cons _).trans (congrArg _ h3)))
  exact splitDot_hex_cons a ha _ _ _ (splitDot_hex_cons b hb _ _ _
    (splitDot_hex_cons c hc _ _ _ ((splitDot_dot_cons _).trans (congrArg _ h2))))

theorem getErrorCode_decode (code : Nat) (h : code < 2 ^ 32) :
    getErrorCode (code / 2 ^ 20) (code / 2 ^ 12 % 2 ^ 8) (code % 2 ^ 12) = code := by
  rw [getErrorCode_add _ _ _ (by omega) (by omega) (by omega)]
  omega

theorem parse_format (code : Nat) (h : code < 2 ^ 32) :
    strErrorCodeToErrorCode (errorCodeToStr code) = some code := by
  unfold strErrorCodeToErrorCode
  rw [errorCodeToStr_data code h,
    splitDot_display _ _ _ _ _ _ _ _ (by omega) (by omega) (by omega) (by omega) (by omega)
      (by omega) (by omega) (by omega)]
  simp only [index, List.get?, Option.bind_eq_bind, Option.some_bind, Option.pure_def]
  rw [parseUintHex_three _ _ _ (by omega) (by omega) (by omega),
    parseUintHex_two _ _ (by omega) (by omega),
    parseUintHex_three _ _ _ (by omega) (by omega) (by omega)]
  simp only [uint16, byte]
  congr 1
  have e1 : (code / 2 ^ 20 / 256 * 256 + code / 2 ^ 20 / 16 % 16 * 16 + code / 2 ^ 20 % 16)
      % 2 ^ 16 = code / 2 ^ 20 := by omega
  have e2 : (code / 2 ^ 12 % 2 ^ 8 / 16 * 16 + code / 2 ^ 12 % 2 ^ 8 % 16) % 2 ^ 8
      = code / 2 ^ 12 % 2 ^ 8 := by omega
  have e3 : (code % 2 ^ 12 / 256 * 256 + code % 2 ^ 12 / 16 % 16 * 16 + code % 2 ^ 12 % 16)
      % 2 ^ 16 = code % 2 ^ 12 := by omega
  rw [e1, e2, e3]
  exact getErrorCode_decode code h

theorem getErrorCode_lt (service category subcode : Nat) :
    getErrorCode service category subcode < 2 ^ 32 := by
  unfold getErrorCode shl32 uint32
  exact Nat.or_lt_two_pow (Nat.or_lt_two_pow (Nat.or_lt_two_pow (by decide)
    (Nat.mod_lt _ (by decide))) (Nat.mod_lt _ (by decide))) (Nat.mod_lt _ (by decide))


theorem upperHexDigit_eq : ∀ d, d < 16 → upperHexDigit d = hexDigit d := by decide

theorem upperHexDigit_class :
    ∀ d, d < 16 → (upperHexDigit d ≠ '.' ∧ isUpperHexChar (upperHexDigit d) = true) := by
  decide

theorem dots_of_shape (x1 x2 x3 x4 x5 x6 x7 x8 : Char) (h1 : x1 ≠ '.') (h2 : x2 ≠ '.')
    (h3 : x3 ≠ '.') (h4 : x4 ≠ '.') (h5 : x5 ≠ '.') (h6 : x6 ≠ '.') (h7 : x7 ≠ '.')
    (h8 : x8 ≠ '.') (i : Nat) (hi : i < 10) :
    [x1, x2, x3, '.', x4, x5, '.', x6, x7, x8].getD i ' ' = '.' ↔ i = 3 ∨ i = 6 := by
  interval_cases i <;> simp [h1, h2, h3, h4, h5, h6, h7, h8]

theorem class_of_shape (x1 x2 x3 x4 x5 x6 x7 x8 : Char) (h1 : isUpperHexChar x1 = true)
    (h2 : isUpperHexChar x2 = true) (h3 : isUpperHexChar x3 = true)
    (h4 : isUpperHexChar x4 = true) (h5 : isUpperHexChar x5 = true)
    (h6 : isUpperHexChar x6 = true) (h7 : isUpperHexChar x7 = true)
    (h8 : isUpperHexChar x8 = true) (i : Nat) (hi : i < 10) (n3 : i ≠ 3) (n6 : i ≠ 6) :
    isUpperHexChar ([x1, x2, x3, '.', x4, x5, '.', x6, x7, x8].getD i ' ') = true := by
  interval_cases i <;> first | exact absurd rfl n3 | exact absurd rfl n6 | assumption

/-! ## The claims -/

/-- C1: for a 16-bit service, an 8-bit category and a 16-bit subcode, `getErrorCode` returns
`(service << 20) | (category << 12) | subcode` computed on the operands widened to 32
bits, that is, the unbounded expression reduced modulo `2 ^ 32`. -/
theorem getErrorCode_contract (service category subcode : Nat)
    (hs : service < 2 ^ 16) (hc : category < 2 ^ 8) (_hsub : subcode < 2 ^ 16) :
    getErrorCode service category subcode
      = ((service <<< 20) ||| (category <<< 12) ||| subcode) % 2 ^ 32 :=
  getErrorCode_eq service category subcode hs hc

/-- C1 at `service = 65535`, whose four top bits are shifted past bit 31. -/
theorem getErrorCode_contract_witness :
    (65535 < 2 ^ 16 ∧ 189 < 2 ^ 8 ∧ 4321 < 2 ^ 16) ∧
      getErrorCode 65535 189 4321
        = ((65535 <<< 20) ||| (189 <<< 12) ||| 4321) % 2 ^ 32 :=
  ⟨by decide, getErrorCode_contract 65535 189 4321 (by decide) (by decide) (by decide)⟩

/-- C2: for a 32-bit code, `decodeErrorCode` returns
`(code >> 20, (code >> 12) & 0xFF, code & 0xFFF)`; the mask `1044480` has exactly the bits
12..19 set, bit `i` of the category is bit `12 + i` of the code for `i < 8` and clear above,
and the three results are at most 4095, 255 and 4095. -/
theorem decodeErrorCode_contract (code : Nat) (h : code < 2 ^ 32) :
    decodeErrorCode code = (code >>> 20, (code >>> 12) &&& 0xFF, code &&& 0xFFF)
      ∧ (∀ i, categoryMask.testBit i = true ↔ 12 ≤ i ∧ i ≤ 19)
      ∧ (∀ i, (decodeErrorCode code).2.1.testBit i = (decide (i < 8) && code.testBit (12 + i)))
      ∧ (decodeErrorCode code).1 ≤ 4095
      ∧ (decodeErrorCode code).2.1 ≤ 255
      ∧ (decodeErrorCode code).2.2 ≤ 4095 := by
  have e1 : (0xFF : Nat) = 2 ^ 8 - 1 := by decide
  have e2 : (0xFFF : Nat) = 2 ^ 12 - 1 := by decide
  have hd := decodeErrorCode_divmod code h
  refine ⟨?_, ?_, ?_, ?_, ?_, ?_⟩
  · rw [hd, e1, e2]
    simp only [Nat.and_pow_two_sub_one_eq_mod, Nat.shiftRight_eq_div_pow]
  · intro i
    rw [testBit_categoryMask, decide_eq_true_iff]
    omega
  · intro i
    rw [hd]
    simp only [Nat.testBit_mod_two_pow, ← Nat.shiftRight_eq_div_pow, Nat.testBit_shiftRight]
  · rw [hd]; simp only; omega
  · rw [hd]; simp only; omega
  · rw [hd]; simp only; omega

/-- C2 at the benchmark input `1331331`. -/
theorem decodeErrorCode_contract_witness :
    1331331 < 2 ^ 32 ∧
      (decodeErrorCode 1331331 = (1331331 >>> 20, (1331331 >>> 12) &&& 0xFF, 1331331 &&& 0xFFF)
      ∧ (∀ i, categoryMask.testBit i = true ↔ 12 ≤ i ∧ i ≤ 19)
      ∧ (∀ i, (decodeErrorCode 1331331).2.1.testBit i
            = (decide (i < 8) && Nat.testBit 1331331 (12 + i)))
      ∧ (decodeErrorCode 1331331).1 ≤ 4095
      ∧ (decodeErrorCode 1331331).2.1 ≤ 255
      ∧ (decodeErrorCode 1331331).2.2 ≤ 4095) :=
  ⟨by decide, decodeErrorCode_contract 1331331 (by decide)⟩

/-- C3: for `service ≤ 4095`, `category ≤ 255` and `subcode ≤ 4095`, decoding the code
that `getErrorCode` builds gives back the three fields. -/
theorem decode_getErrorCode_roundtrip (service category subcode : Nat)
    (hs : service ≤ 4095) (hc : category ≤ 255) (hsub : subcode ≤ 4095) :
    decodeErrorCode (getErrorCode service category subcode)
      = (service, category, subcode) := by
  rw [getErrorCode_add service category subcode (by omega) (by omega) (by omega),
    decodeErrorCode_divmod _ (by omega)]
  refine Prod.ext ?_ (Prod.ext ?_ ?_) <;> simp only <;> omega

/-- C3 at `(3936, 150, 1513)`. -/
theorem decode_getErrorCode_roundtrip_witness :
    (3936 ≤ 4095 ∧ 150 ≤ 255 ∧ 1513 ≤ 4095) ∧
      decodeErrorCode (getErrorCode 3936 150 1513) = (3936, 150, 1513) :=
  ⟨by decide, decode_getErrorCode_roundtrip 3936 150 1513 (by decide) (by decide) (by decide)⟩

/-- C4: the string form is lossless.  Parsing the rendering of the code of an in-range
triple returns that code, and parsing the rendering of any 32-bit code returns the code
(in both cases the function returns, without a panic). -/
theorem parse_format_roundtrip :
    (∀ service category subcode, service ≤ 4095 → category ≤ 255 → subcode ≤ 4095 →
        strErrorCodeToErrorCode (errorCodeToStr (getErrorCode service category subcode))
          = some (getErrorCode service category subcode))
      ∧ (∀ code, code < 2 ^ 32 → strErrorCodeToErrorCode (errorCodeToStr code) = some code) :=
  ⟨fun service category subcode _ _ _ =>
      parse_format _ (getErrorCode_lt service category subcode),
    parse_format⟩

/-- C4 at the triple `(3936, 150, 1513)` and at the code `4294967295`. -/
theorem parse_format_roundtrip_witness :
    ((3936 ≤ 4095 ∧ 150 ≤ 255 ∧ 1513 ≤ 4095) ∧
        strErrorCodeToErrorCode (errorCodeToStr (getErrorCode 3936 150 1513))
          = some (getErrorCode 3936 150 1513))
      ∧ (4294967295 < 2 ^ 32 ∧
        strErrorCodeToErrorCode (errorCodeToStr 4294967295) = some 4294967295) :=
  ⟨⟨by decide, parse_format_roundtrip.1 3936 150 1513 (by decide) (by decide) (by decide)⟩,
    ⟨by decide, parse_format_roundtrip.2 4294967295 (by decide)⟩⟩

/-- C5: every 32-bit code satisfies the layout invariant.  If `decodeErrorCode code` is
`(service, category, subcode)` then `code = (service << 20) | (category << 12) | subcode`
and `getErrorCode service category subcode = code`. -/
theorem layout_invariant (code : Nat) (h : code < 2 ^ 32) (service category subcode : Nat)
    (hd : decodeErrorCode code = (service, category, subcode)) :
    code = (service <<< 20) ||| (category <<< 12) ||| subcode
      ∧ getErrorCode service category subcode = code := by
  rw [decodeErrorCode_divmod code h] at hd
  simp only [Prod.mk.injEq] at hd
  obtain ⟨rfl, rfl, rfl⟩ := hd
  refine ⟨?_, getErrorCode_decode code h⟩
  rw [shift_or_eq_add _ _ _ (by omega) (by omega)]
  omega

/-- C5 at the code `1294073441`, whose fields are `(1234, 31, 3681)`. -/
theorem layout_invariant_witness :
    (1294073441 < 2 ^ 32 ∧ decodeErrorCode 1294073441 = (1234, 31, 3681)) ∧
      (1294073441 = (1234 <<< 20) ||| (31 <<< 12) ||| 3681
        ∧ getErrorCode 1234 31 3681 = 1294073441) :=
  ⟨by decide, layout_invariant 1294073441 (by decide) 1234 31 3681 (by decide)⟩

/-- C6: for a 32-bit code, `errorCodeToStr` is the display form `XXX.XX.XXX` of the fields
that `decodeErrorCode` returns (three, two and three uppercase hexadecimal digits, zero
padded); it has length 10, a `.` at the indices 3 and 6 and nowhere else, and a character
of `0-9A-F` at every other index. -/
theorem errorCodeToStr_shape (code : Nat) (h : code < 2 ^ 32) :
    (errorCodeToStr code).data
        = displayForm (decodeErrorCode code).1 (decodeErrorCode code).2.1
            (decodeErrorCode code).2.2
      ∧ (errorCodeToStr code).length = 10
      ∧ (∀ i, i < 10 → ((errorCodeToStr code).data.getD i ' ' = '.' ↔ i = 3 ∨ i = 6))
      ∧ (∀ i, i < 10 → i ≠ 3 → i ≠ 6 →
          isUpperHexChar ((errorCodeToStr code).data.getD i ' ') = true) := by
  have hdata : (errorCodeToStr code).data
      = displayForm (decodeErrorCode code).1 (decodeErrorCode code).2.1
          (decodeErrorCode code).2.2 := by
    rw [errorCodeToStr_data code h, decodeErrorCode_divmod code h]
    simp only [displayForm]
    rw [upperHexDigit_eq _ (by omega), upperHexDigit_eq _ (by omega),
      upperHexDigit_eq _ (by omega), upperHexDigit_eq _ (by omega),
      upperHexDigit_eq _ (by omega), upperHexDigit_eq _ (by omega),
      upperHexDigit_eq _ (by omega), upperHexDigit_eq _ (by omega)]
  refine ⟨hdata, ?_, ?_, ?_⟩
  · rw [String.length, hdata]; rfl
  · intro i hi
    rw [hdata]
    have hb := (decodeErrorCode_lt code h)
    exact dots_of_shape _ _ _ _ _ _ _ _ (upperHexDigit_class _ (by omega)).1
      (upperHexDigit_class _ (by omega)).1 (upperHexDigit_class _ (by omega)).1
      (upperHexDigit_class _ (by omega)).1 (upperHexDigit_class _ (by omega)).1
      (upperHexDigit_class _ (by omega)).1 (upperHexDigit_class _ (by omega)).1
      (upperHexDigit_class _ (by omega)).1 i hi
  · intro i hi n3 n6
    rw [hdata]
    have hb := (decodeErrorCode_lt code h)
    exact class_of_shape _ _ _ _ _ _ _ _ (upperHexDigit_class _ (by omega)).2
      (upperHexDigit_class _ (by omega)).2 (upperHexDigit_class _ (by omega)).2
      (upperHexDigit_class _ (by omega)).2 (upperHexDigit_class _ (by omega)).2
      (upperHexDigit_class _ (by omega)).2 (upperHexDigit_class _ (by omega)).2
      (upperHexDigit_class _ (by omega)).2 i hi n3 n6

/-- C6 at the code `4134987241`, rendered `F67.6D.5E9`. -/
theorem errorCodeToStr_shape_witness :
    4134987241 < 2 ^ 32 ∧
      ((errorCodeToStr 4134987241).data
          = displayForm (decodeErrorCode 4134987241).1 (decodeErrorCode 4134987241).2.1
              (decodeErrorCode 4134987241).2.2
        ∧ (errorCodeToStr 4134987241).length = 10
        ∧ (∀ i, i < 10 → ((errorCodeToStr 4134987241).data.getD i ' ' = '.' ↔ i = 3 ∨ i = 6))
        ∧ (∀ i, i < 10 → i ≠ 3 → i ≠ 6 →
            isUpperHexChar ((errorCodeToStr 4134987241).data.getD i ' ') = true)) :=
  ⟨by decide, errorCodeToStr_shape 4134987241 (by decide)⟩

/-- C7: boundary values.  `getErrorCode 0 0 0` is `0`, rendered `000.00.000`;
`getErrorCode 4095 255 4095` is `0xFFFFFFFF`, rendered `FFF.FF.FFF`. -/
theorem boundary_values :
    getErrorCode 0 0 0 = 0 ∧ errorCodeToStr 0 = "000.00.000"
      ∧ getErrorCode 4095 255 4095 = 0xFFFFFFFF
      ∧ errorCodeToStr 0xFFFFFFFF = "FFF.FF.FFF" := by
  decide

/-- C8 as stated fails: `getErrorCode 1234 189 4321` is `(1234<<20) | (189<<12) | 4321`,
but that value is not `1294073441`. -/
theorem worked_encode_not_1294073441 :
    ¬ (getErrorCode 1234 189 4321 = (1234 <<< 20) ||| (189 <<< 12) ||| 4321
        ∧ (1234 <<< 20) ||| (189 <<< 12) ||| 4321 = 1294073441) := by
  decide

/-- C8, amended: `getErrorCode 1234 189 4321` equals `(1234<<20) | (189<<12) | 4321`, and
that value is `1294717153`. -/
theorem worked_encode :
    getErrorCode 1234 189 4321 = (1234 <<< 20) ||| (189 <<< 12) ||| 4321
      ∧ (1234 <<< 20) ||| (189 <<< 12) ||| 4321 = 1294717153 := by
  decide

/-- C9 as stated fails: `decodeErrorCode 1294073441` is not `(1234, 189, 4321)`. -/
theorem worked_decode_not_1234_189_4321 :
    decodeErrorCode 1294073441 ≠ (1234, 189, 4321) := by
  decide

/-- C9, amended: `decodeErrorCode 1294073441` returns `(1234, 31, 3681)`. -/
theorem worked_decode : decodeErrorCode 1294073441 = (1234, 31, 3681) := by
  decide

/-- C10 as stated fails: `errorCodeToStr 1294073441` is not `4D2.BD.10E1`. -/
theorem worked_format_not_4D2_BD_10E1 : errorCodeToStr 1294073441 ≠ "4D2.BD.10E1" := by
  decide

/-- C10, amended: `errorCodeToStr 1294073441` equals `4D2.1F.E61`. -/
theorem worked_format : errorCodeToStr 1294073441 = "4D2.1F.E61" := by
  decide

/-- C15 as stated fails: with `subcode = 4096` the code differs from the one built from the
fields reduced modulo 4096. -/
theorem truncation_fails_at_4096 :
    ¬ (getErrorCode 0 0 4096 = getErrorCode (0 % 4096) 0 (4096 % 4096)
        ∧ decodeErrorCode (getErrorCode 0 0 4096) = (0 % 4096, 0, 4096 % 4096)) := by
  decide

/-- C15, amended: for a 16-bit service, an 8-bit category and a 16-bit subcode,
`getErrorCode service category subcode` is the code of
`(service mod 4096, category | (subcode >> 12), subcode mod 4096)`, and `decodeErrorCode`
of it returns that triple: the high bits of the service are lost, those of the subcode are
OR-ed into the category. -/
theorem out_of_range_inputs (service category subcode : Nat)
    (hs : service < 2 ^ 16) (hc : category < 2 ^ 8) (hsub : subcode < 2 ^ 16) :
    getErrorCode service category subcode
        = getErrorCode (service % 4096) (category ||| subcode >>> 12) (subcode % 4096)
      ∧ decodeErrorCode (getErrorCode service category subcode)
        = (service % 4096, category ||| subcode >>> 12, subcode % 4096) :=
  ⟨getErrorCode_spill service category subcode hs hc hsub,
    decode_getErrorCode_spill service category subcode hs hc hsub⟩

/-- C15, amended, at `(65535, 160, 65535)`. -/
theorem out_of_range_inputs_witness :
    (65535 < 2 ^ 16 ∧ 160 < 2 ^ 8 ∧ 65535 < 2 ^ 16) ∧
      (getErrorCode 65535 160 65535
          = getErrorCode (65535 % 4096) (160 ||| 65535 >>> 12) (65535 % 4096)
        ∧ decodeErrorCode (getErrorCode 65535 160 65535)
          = (65535 % 4096, 160 ||| 65535 >>> 12, 65535 % 4096)) :=
  ⟨by decide, out_of_range_inputs 65535 160 65535 (by decide) (by decide) (by decide)⟩

/-- C17: an oversized subcode can corrupt the category.  Some typed input with
`subcode > 4095` decodes to a category other than the one passed in, and in general the
decoded category is `category | (subcode >> 12)`: the bits 12..15 of the subcode are OR-ed
into the low four bits of the category. -/
theorem subcode_corrupts_category :
    (∃ service category subcode, service < 2 ^ 16 ∧ category < 2 ^ 8 ∧ subcode < 2 ^ 16
        ∧ 4095 < subcode
        ∧ (decodeErrorCode (getErrorCode service category subcode)).2.1 ≠ category)
      ∧ (∀ service category subcode, service < 2 ^ 16 → category < 2 ^ 8 → subcode < 2 ^ 16 →
          (decodeErrorCode (getErrorCode service category subcode)).2.1
            = category ||| subcode >>> 12) := by
  refine ⟨⟨0, 0, 4096, by decide⟩, ?_⟩
  intro service category subcode hs hc hsub
  rw [decode_getErrorCode_spill service category subcode hs hc hsub]

/-- C17 at `(1234, 188, 4321)`: the decoded category is `188 | 1 = 189`. -/
theorem subcode_corrupts_category_witness :
    (1234 < 2 ^ 16 ∧ 188 < 2 ^ 8 ∧ 4321 < 2 ^ 16) ∧
      (decodeErrorCode (getErrorCode 1234 188 4321)).2.1 = 188 ||| 4321 >>> 12 :=
  ⟨by decide, subcode_corrupts_category.2 1234 188 4321 (by decide) (by decide) (by decide)⟩

/-- C18: an oversized service never corrupts another field.  For a 16-bit service,
`getErrorCode service category subcode = getErrorCode (service mod 4096) category subcode`,
and the decoded category and subcode are those of the code built with service `0`. -/
theorem service_overflow_dropped (service category subcode : Nat)
    (hs : service < 2 ^ 16) (hc : category < 2 ^ 8) (hsub : subcode < 2 ^ 16) :
    getErrorCode service category subcode = getErrorCode (service % 4096) category subcode
      ∧ (decodeErrorCode (getErrorCode service category subcode)).2
        = (decodeErrorCode (getErrorCode 0 category subcode)).2 := by
  constructor
  · rw [getErrorCode_spill service category subcode hs hc hsub,
      getErrorCode_spill (service % 4096) category subcode (by omega) hc hsub,
      Nat.mod_mod]
  · rw [decode_getErrorCode_spill service category subcode hs hc hsub,
      decode_getErrorCode_spill 0 category subcode (by omega) hc hsub]

/-- C18 at `service = 65535`. -/
theorem service_overflow_dropped_witness :
    (65535 < 2 ^ 16 ∧ 189 < 2 ^ 8 ∧ 225 < 2 ^ 16) ∧
      (getErrorCode 65535 189 225 = getErrorCode (65535 % 4096) 189 225
        ∧ (decodeErrorCode (getErrorCode 65535 189 225)).2
          = (decodeErrorCode (getErrorCode 0 189 225)).2) :=
  ⟨by decide, service_overflow_dropped 65535 189 225 (by decide) (by decide) (by decide)⟩

/-- C19: the round trip holds only for in-range inputs.  For typed inputs with
`service > 4095` or `subcode > 4095`, decoding the code does not give the triple back. -/
theorem roundtrip_fails_out_of_range (service category subcode : Nat)
    (hs : service < 2 ^ 16) (hc : category < 2 ^ 8) (hsub : subcode < 2 ^ 16)
    (h : 4095 < service ∨ 4095 < subcode) :
    decodeErrorCode (getErrorCode service category subcode)
      ≠ (service, category, subcode) := by
  rw [decode_getErrorCode_spill service category subcode hs hc hsub]
  intro heq
  simp only [Prod.mk.injEq] at heq
  omega

/-- C19 at the benchmark input `(1234, 189, 4321)`. -/
theorem roundtrip_fails_out_of_range_witness :
    (1234 < 2 ^ 16 ∧ 189 < 2 ^ 8 ∧ 4321 < 2 ^ 16 ∧ (4095 < 1234 ∨ 4095 < 4321)) ∧
      decodeErrorCode (getErrorCode 1234 189 4321) ≠ (1234, 189, 4321) :=
  ⟨by decide, roundtrip_fails_out_of_range 1234 189 4321 (by decide) (by decide) (by decide)
    (by decide)⟩


theorem le_or_32 (b : Nat) : b ≤ b ||| 32 :=
  Nat.le_of_testBit (fun i h => by rw [Nat.testBit_or, h, Bool.true_or])

theorem digitVal_byte_hex : ∀ b, b < 128 →
    ((48 ≤ b && b ≤ 57) || (65 ≤ b && b ≤ 70) || (97 ≤ b && b ≤ 102)) = true →
    (if 48 ≤ b ∧ b ≤ 57 then some (b - 48)
      else if 97 ≤ (b ||| 32) ∧ (b ||| 32) ≤ 122 then some ((b ||| 32) - 97 + 10)
      else none)
      = some (if b ≤ 57 then b - 48 else if b ≤ 70 then b - 55 else b - 87)
    ∧ (if b ≤ 57 then b - 48 else if b ≤ 70 then b - 55 else b - 87) < 16 := by
  decide

theorem digitVal_byte_not_hex : ∀ b, b < 128 →
    ((48 ≤ b && b ≤ 57) || (65 ≤ b && b ≤ 70) || (97 ≤ b && b ≤ 102)) = false →
    ∀ d, (if 48 ≤ b ∧ b ≤ 57 then some (b - 48)
      else if 97 ≤ (b ||| 32) ∧ (b ||| 32) ≤ 122 then some ((b ||| 32) - 97 + 10)
      else none) = some d → 16 ≤ d := by
  decide

theorem isHexChar_lt (c : Char) (h : isHexChar c = true) : c.toNat < 128 := by
  simp only [isHexChar, Bool.or_eq_true, Bool.and_eq_true, decide_eq_true_eq] at h
  omega

theorem digitVal_of_isHexChar (c : Char) (h : isHexChar c = true) :
    digitVal c = some (hexCharValue c) ∧ hexCharValue c < 16 :=
  digitVal_byte_hex c.toNat (isHexChar_lt c h) h

theorem digitVal_of_not_isHexChar (c : Char) (h : isHexChar c = false) (d : Nat)
    (hd : digitVal c = some d) : 16 ≤ d := by
  by_cases hb : c.toNat < 128
  · exact digitVal_byte_not_hex c.toNat hb h d hd
  · have h1 : ¬ (48 ≤ c.toNat ∧ c.toNat ≤ 57) := by omega
    have h2 : ¬ (97 ≤ (c.toNat ||| 32) ∧ (c.toNat ||| 32) ≤ 122) := by
      have := le_or_32 c.toNat
      omega
    simp only [digitVal, if_neg h1, if_neg h2] at hd
    exact absurd hd (by simp)

theorem hexValueFrom_cons (n : Nat) (c : Char) (s : List Char) :
    hexValueFrom n (c :: s) = hexValueFrom (n * 16 + hexCharValue c) s := rfl

theorem le_hexValueFrom (s : List Char) : ∀ n, n ≤ hexValueFrom n s := by
  induction s with
  | nil => intro n; exact Nat.le_refl n
  | cons c s ih =>
    intro n
    rw [hexValueFrom_cons]
    exact Nat.le_trans (by omega) (ih _)

theorem parseUintLoop_fst (maxVal : Nat) (hm : maxVal < 2 ^ 60) (cs : List Char) :
    ∀ n, n ≤ maxVal →
      (parseUintLoop maxVal n cs).1
        = if maxVal < hexValueFrom n (cs.takeWhile isHexChar) then maxVal
          else if cs.all isHexChar then hexValueFrom n cs else 0 := by
  induction cs with
  | nil =>
    intro n hn
    have h1 : ¬ (maxVal < n) := by omega
    simp [parseUintLoop, hexValueFrom, h1]
  | cons c cs ih =>
    intro n hn
    by_cases hc : isHexChar c = true
    · obtain ⟨hv, hlt⟩ := digitVal_of_isHexChar c hc
      have h1 : ¬ (16 ≤ hexCharValue c) := by omega
      have h2 : ¬ (cutoff16 ≤ n) := by
        have : cutoff16 = 2 ^ 60 := by decide
        omega
      have h3 : (n * 16) % 2 ^ 64 = n * 16 := Nat.mod_eq_of_lt (by omega)
      have h4 : (n * 16 + hexCharValue c) % 2 ^ 64 = n * 16 + hexCharValue c :=
        Nat.mod_eq_of_lt (by omega)
      rw [List.takeWhile_cons_of_pos hc, hexValueFrom_cons, hexValueFrom_cons,
        List.all_cons, hc, Bool.true_and]
      simp only [parseUintLoop, hv, if_neg h1, if_neg h2, h3, h4]
      by_cases hov : maxVal < n * 16 + hexCharValue c
      · have h5 : n * 16 + hexCharValue c < n * 16 ∨ maxVal < n * 16 + hexCharValue c :=
          Or.inr hov
        have h6 : maxVal < hexValueFrom (n * 16 + hexCharValue c)
            (cs.takeWhile isHexChar) :=
          Nat.lt_of_lt_of_le hov (le_hexValueFrom _ _)
        rw [if_pos h5, if_pos h6]
      · have h5 : ¬ (n * 16 + hexCharValue c < n * 16 ∨ maxVal < n * 16 + hexCharValue c) := by
          omega
        rw [if_neg h5]
        exact ih _ (by omega)
    · have hc2 : isHexChar c = false := by simpa using hc
      have h1 : ¬ (maxVal < n) := by omega
      rw [List.takeWhile_cons_of_neg hc, List.all_cons, hc2, Bool.false_and]
      simp only [hexValueFrom, List.foldl_nil, if_neg h1, Bool.false_eq_true, if_false]
      cases hd : digitVal c with
      | none => simp only [parseUintLoop, hd]
      | some d =>
        have h16 := digitVal_of_not_isHexChar c hc2 d hd
        simp only [parseUintLoop, hd, if_pos h16]

theorem parseUintHex_fst (bitSize : Nat) (hb : bitSize ≤ 59) (seg : List Char) :
    (parseUintHex seg bitSize).1 = segmentValue bitSize seg := by
  have hm : 2 ^ bitSize - 1 < 2 ^ 60 := by
    have : 2 ^ bitSize ≤ 2 ^ 59 := Nat.pow_le_pow_right (by decide) hb
    omega
  unfold parseUintHex segmentValue hexValue
  by_cases he : seg = []
  · subst he
    simp [hexValueFrom]
  · rw [if_neg he, parseUintLoop_fst _ hm seg 0 (Nat.zero_le _)]
    have h2 : seg.isEmpty = false := by
      cases seg with
      | nil => exact absurd rfl he
      | cons a l => rfl
    rw [h2, Bool.false_or]
    by_cases hall : seg.all isHexChar = true
    · simp only [hall, if_true, Bool.not_true, Bool.false_eq_true, if_false]
    · have hall2 : seg.all isHexChar = false := by simpa using hall
      simp only [hall2, Bool.false_eq_true, if_false, Bool.not_false, if_true]

theorem takeWhile_of_all (seg : List Char) (h : seg.all isHexChar = true) :
    seg.takeWhile isHexChar = seg := by
  induction seg with
  | nil => rfl
  | cons c cs ih =>
    rw [List.all_cons, Bool.and_eq_true] at h
    rw [List.takeWhile_cons_of_pos h.1, ih h.2]

theorem segmentValue_le (bitSize : Nat) (seg : List Char) :
    segmentValue bitSize seg ≤ 2 ^ bitSize - 1 := by
  unfold segmentValue
  by_cases h1 : 2 ^ bitSize - 1 < hexValue (seg.takeWhile isHexChar)
  · rw [if_pos h1]
  · rw [if_neg h1]
    by_cases h2 : (seg.isEmpty || !seg.all isHexChar) = true
    · rw [if_pos h2]; exact Nat.zero_le _
    · rw [if_neg h2]
      have hall : seg.all isHexChar = true := by
        cases hh : seg.all isHexChar with
        | true => rfl
        | false => simp [hh] at h2
      rw [takeWhile_of_all seg hall] at h1
      omega

theorem segmentValue_valid (bitSize : Nat) (seg : List Char) (hne : seg ≠ [])
    (hall : seg.all isHexChar = true) (hfit : hexValue seg < 2 ^ bitSize) :
    segmentValue bitSize seg = hexValue seg := by
  unfold segmentValue
  have h1 : ¬ (2 ^ bitSize - 1 < hexValue (seg.takeWhile isHexChar)) := by
    rw [takeWhile_of_all seg hall]; omega
  have h2 : seg.isEmpty = false := by
    cases seg with
    | nil => exact absurd rfl hne
    | cons a l => rfl
  rw [if_neg h1, h2, hall]
  rfl

theorem strErrorCodeToErrorCode_parts (text : String) (p1 p2 p3 : List Char)
    (rest : List (List Char)) (h : splitDot text.data = p1 :: p2 :: p3 :: rest) :
    strErrorCodeToErrorCode text
      = some (getErrorCode (segmentValue 16 p1) (segmentValue 8 p2) (segmentValue 16 p3)) := by
  unfold strErrorCodeToErrorCode
  rw [h]
  simp only [index, List.get?, Option.bind_eq_bind, Option.some_bind, Option.pure_def]
  rw [parseUintHex_fst 16 (by decide) p1, parseUintHex_fst 8 (by decide) p2,
    parseUintHex_fst 16 (by decide) p3]
  have e1 : uint16 (segmentValue 16 p1) = segmentValue 16 p1 :=
    Nat.mod_eq_of_lt (by have := segmentValue_le 16 p1; omega)
  have e2 : byte (segmentValue 8 p2) = segmentValue 8 p2 :=
    Nat.mod_eq_of_lt (by have := segmentValue_le 8 p2; omega)
  have e3 : uint16 (segmentValue 16 p3) = segmentValue 16 p3 :=
    Nat.mod_eq_of_lt (by have := segmentValue_le 16 p3; omega)
  rw [e1, e2, e3]

theorem hexDigit_inj : ∀ a, a < 16 → ∀ b, b < 16 → hexDigit a = hexDigit b → a = b := by
  decide

theorem splitDot_rendering (code : Nat) (h : code < 2 ^ 32) :
    splitDot (errorCodeToStr code).data
      = [[hexDigit (code / 2 ^ 20 / 256), hexDigit (code / 2 ^ 20 / 16 % 16),
            hexDigit (code / 2 ^ 20 % 16)],
          [hexDigit (code / 2 ^ 12 % 2 ^ 8 / 16), hexDigit (code / 2 ^ 12 % 2 ^ 8 % 16)],
          [hexDigit (code % 2 ^ 12 / 256), hexDigit (code % 2 ^ 12 / 16 % 16),
            hexDigit (code % 2 ^ 12 % 16)]] := by
  rw [errorCodeToStr_data code h]
  exact splitDot_display _ _ _ _ _ _ _ _ (by omega) (by omega) (by omega) (by omega)
    (by omega) (by omega) (by omega) (by omega)

/-- C11: field isolation.  For in-range fields, the renderings of
`getErrorCode service c1 subcode` and `getErrorCode service c2 subcode` split on `.` into
three segments each, with the same first and the same third segment, and their middle
segments differ exactly when `c1 ≠ c2`. -/
theorem field_isolation (service subcode c1 c2 : Nat)
    (hs : service ≤ 4095) (hsub : subcode ≤ 4095) (h1 : c1 ≤ 255) (h2 : c2 ≤ 255) :
    ∃ first mid1 mid2 third,
      splitDot (errorCodeToStr (getErrorCode service c1 subcode)).data = [first, mid1, third]
        ∧ splitDot (errorCodeToStr (getErrorCode service c2 subcode)).data
            = [first, mid2, third]
        ∧ (mid1 ≠ mid2 ↔ c1 ≠ c2) := by
  have a1 := getErrorCode_add service c1 subcode (by omega) (by omega) (by omega)
  have a2 := getErrorCode_add service c2 subcode (by omega) (by omega) (by omega)
  have e1 := splitDot_rendering _ (getErrorCode_lt service c1 subcode)
  have e2 := splitDot_rendering _ (getErrorCode_lt service c2 subcode)
  rw [a1] at e1
  rw [a2] at e2
  have s1 : (service * 2 ^ 20 + c1 * 2 ^ 12 + subcode) / 2 ^ 20 = service := by omega
  have s2 : (service * 2 ^ 20 + c2 * 2 ^ 12 + subcode) / 2 ^ 20 = service := by omega
  have m1 : (service * 2 ^ 20 + c1 * 2 ^ 12 + subcode) / 2 ^ 12 % 2 ^ 8 = c1 := by omega
  have m2 : (service * 2 ^ 20 + c2 * 2 ^ 12 + subcode) / 2 ^ 12 % 2 ^ 8 = c2 := by omega
  have t1 : (service * 2 ^ 20 + c1 * 2 ^ 12 + subcode) % 2 ^ 12 = subcode := by omega
  have t2 : (service * 2 ^ 20 + c2 * 2 ^ 12 + subcode) % 2 ^ 12 = subcode := by omega
  rw [s1, m1, t1] at e1
  rw [s2, m2, t2] at e2
  rw [a1, a2]
  refine ⟨_, _, _, _, e1, e2, ?_⟩
  constructor
  · intro hne heq
    exact hne (by rw [heq])
  · intro hne heq
    apply hne
    simp only [List.cons.injEq, and_true] at heq
    have q := hexDigit_inj _ (by omega) _ (by omega) heq.1
    have r := hexDigit_inj _ (by omega) _ (by omega) heq.2
    omega

/-- C11 at service `3936`, subcode `1513` and the categories `150` and `151`. -/
theorem field_isolation_witness :
    (3936 ≤ 4095 ∧ 1513 ≤ 4095 ∧ 150 ≤ 255 ∧ 151 ≤ 255) ∧
      ∃ first mid1 mid2 third,
        splitDot (errorCodeToStr (getErrorCode 3936 150 1513)).data = [first, mid1, third]
          ∧ splitDot (errorCodeToStr (getErrorCode 3936 151 1513)).data
              = [first, mid2, third]
          ∧ (mid1 ≠ mid2 ↔ 150 ≠ 151) :=
  ⟨by decide, field_isolation 3936 1513 150 151 (by decide) (by decide) (by decide)
    (by decide)⟩

/-- C12: a string that splits on `.` into exactly three parts, each a non-empty sequence of
hexadecimal digits (of either case, zero padded or not) whose value fits in 16, 8 and 16
bits, parses to `getErrorCode` of the three base-16 values. -/
theorem parse_wellformed (text : String) (p1 p2 p3 : List Char)
    (hsplit : splitDot text.data = [p1, p2, p3])
    (n1 : p1 ≠ []) (n2 : p2 ≠ []) (n3 : p3 ≠ [])
    (x1 : p1.all isHexChar = true) (x2 : p2.all isHexChar = true)
    (x3 : p3.all isHexChar = true)
    (f1 : hexValue p1 < 2 ^ 16) (f2 : hexValue p2 < 2 ^ 8) (f3 : hexValue p3 < 2 ^ 16) :
    strErrorCodeToErrorCode text
      = some (getErrorCode (hexValue p1) (hexValue p2) (hexValue p3)) := by
  rw [strErrorCodeToErrorCode_parts text p1 p2 p3 [] hsplit,
    segmentValue_valid 16 p1 n1 x1 f1, segmentValue_valid 8 p2 n2 x2 f2,
    segmentValue_valid 16 p3 n3 x3 f3]

/-- C12 at `00004d2.Bd.0e1`: mixed case and extra zeros, values `1234`, `189`, `225`. -/
theorem parse_wellformed_witness :
    strErrorCodeToErrorCode "00004d2.Bd.0e1" = some (getErrorCode 1234 189 225) :=
  parse_wellformed "00004d2.Bd.0e1" "00004d2".data "Bd".data "0e1".data (by decide)
    (by decide) (by decide) (by decide) (by decide) (by decide) (by decide) (by decide)
    (by decide) (by decide)

/-- C13 as stated fails: on `ZZZ.GG.000` the function returns the code `0`, no failure. -/
theorem malformed_hex_returns_zero : strErrorCodeToErrorCode "ZZZ.GG.000" = some 0 := by
  decide

/-- C13, amended: the function has no `MalformedErrorCode` result.  Whenever the string has
at least three dot-separated segments it returns a 32-bit code, also when a segment is no
valid hexadecimal for its field or when there are more than three segments; on
`ZZZ.GG.000` that code is `0` and on `1.2.3.4` it is the code of `(1, 2, 3)`. -/
theorem parse_returns_code :
    (∀ text : String, 3 ≤ (splitDot text.data).length →
        ∃ code, strErrorCodeToErrorCode text = some code ∧ code < 2 ^ 32)
      ∧ strErrorCodeToErrorCode "ZZZ.GG.000" = some (getErrorCode 0 0 0)
      ∧ strErrorCodeToErrorCode "1.2.3.4" = some (getErrorCode 1 2 3) := by
  refine ⟨?_, by decide, by decide⟩
  intro text hlen
  match hp : splitDot text.data, hlen with
  | p1 :: p2 :: p3 :: rest, _ =>
    exact ⟨_, strErrorCodeToErrorCode_parts text p1 p2 p3 rest hp, getErrorCode_lt _ _ _⟩

/-- C13, amended, at `xyz.12.3.4.5`: five segments, the first one no hexadecimal. -/
theorem parse_returns_code_witness :
    3 ≤ (splitDot "xyz.12.3.4.5".data).length ∧
      ∃ code, strErrorCodeToErrorCode "xyz.12.3.4.5" = some code ∧ code < 2 ^ 32 :=
  ⟨by decide, parse_returns_code.1 "xyz.12.3.4.5" (by decide)⟩

/-- C14 on the code: with fewer than three segments the indexing `parts[1]` or `parts[2]`
panics, so the function returns no code on `12.34` nor on the empty string. -/
theorem parse_panics_on_short_input :
    strErrorCodeToErrorCode "12.34" = none ∧ strErrorCodeToErrorCode "" = none := by
  decide

/-- C16 as stated fails: on `FFFFF.02.003` the oversized first segment is not replaced by
`0`; the result is the code of `(65535, 2, 3)`. -/
theorem oversized_segment_not_zero :
    strErrorCodeToErrorCode "FFFFF.02.003" ≠ some (getErrorCode 0 2 3)
      ∧ strErrorCodeToErrorCode "FFFFF.02.003" = some (getErrorCode 65535 2 3) := by
  decide

/-- C16, amended: for a three-part string the result is `getErrorCode` of the values of the
three segments in 16, 8 and 16 bits, where a segment whose leading hexadecimal digits
exceed the width counts as the largest value of the width (65535, 255, 65535), any other
segment that is empty or holds a character that is no hexadecimal digit counts as `0`, and
a well-formed one counts as its base-16 value. -/
theorem parse_three_parts (text : String) (p1 p2 p3 : List Char)
    (hsplit : splitDot text.data = [p1, p2, p3]) :
    strErrorCodeToErrorCode text
      = some (getErrorCode (segmentValue 16 p1) (segmentValue 8 p2) (segmentValue 16 p3)) :=
  strErrorCodeToErrorCode_parts text p1 p2 p3 [] hsplit

/-- C16, amended, at `12G.fff.`: a character that is no digit, a literal too large for 8
bits and an empty segment give `(0, 255, 0)`. -/
theorem parse_three_parts_witness :
    strErrorCodeToErrorCode "12G.fff." = some (getErrorCode 0 255 0) :=
  parse_three_parts "12G.fff." "12G".data "fff".data [] (by decide)

theorem hexDigit_order : ∀ a, a < 16 → ∀ b, b < 16 →
    (((hexDigit a).toNat < (hexDigit b).toNat ↔ a < b)
      ∧ ((hexDigit a).toNat = (hexDigit b).toNat ↔ a = b)) := by
  decide

theorem bytesLt_hex_cons (a b : Nat) (ha : a < 16) (hb : b < 16) (s t : List Char) :
    bytesLt (hexDigit a :: s) (hexDigit b :: t) = true
      ↔ a < b ∨ (a = b ∧ bytesLt s t = true) := by
  have ho := hexDigit_order a ha b hb
  simp only [bytesLt, Bool.or_eq_true, Bool.and_eq_true, decide_eq_true_eq, ho.1, ho.2]

theorem bytesLt_dot_cons (s t : List Char) :
    bytesLt ('.' :: s) ('.' :: t) = bytesLt s t := by
  simp [bytesLt]

theorem digits_sum (a : Nat) :
    a = (a / 2 ^ 20 / 256) * 2 ^ 28 + (a / 2 ^ 20 / 16 % 16) * 2 ^ 24
        + (a / 2 ^ 20 % 16) * 2 ^ 20 + (a / 2 ^ 12 % 2 ^ 8 / 16) * 2 ^ 16
        + (a / 2 ^ 12 % 2 ^ 8 % 16) * 2 ^ 12 + (a % 2 ^ 12 / 256) * 2 ^ 8
        + (a % 2 ^ 12 / 16 % 16) * 2 ^ 4 + a % 2 ^ 12 % 16 := by
  omega

theorem lex_digits (x1 x2 x3 x4 x5 x6 x7 x8 y1 y2 y3 y4 y5 y6 y7 y8 : Nat)
    (h2 : x2 < 16) (h3 : x3 < 16) (h4 : x4 < 16) (h5 : x5 < 16)
    (h6 : x6 < 16) (h7 : x7 < 16) (h8 : x8 < 16)
    (k2 : y2 < 16) (k3 : y3 < 16) (k4 : y4 < 16) (k5 : y5 < 16)
    (k6 : y6 < 16) (k7 : y7 < 16) (k8 : y8 < 16) :
    (x1 < y1 ∨ x1 = y1 ∧ (x2 < y2 ∨ x2 = y2 ∧ (x3 < y3 ∨ x3 = y3 ∧ (x4 < y4 ∨ x4 = y4 ∧
      (x5 < y5 ∨ x5 = y5 ∧ (x6 < y6 ∨ x6 = y6 ∧ (x7 < y7 ∨ x7 = y7 ∧ x8 < y8)))))))
    ↔ x1 * 2 ^ 28 + x2 * 2 ^ 24 + x3 * 2 ^ 20 + x4 * 2 ^ 16 + x5 * 2 ^ 12 + x6 * 2 ^ 8
        + x7 * 2 ^ 4 + x8
      < y1 * 2 ^ 28 + y2 * 2 ^ 24 + y3 * 2 ^ 20 + y4 * 2 ^ 16 + y5 * 2 ^ 12 + y6 * 2 ^ 8
        + y7 * 2 ^ 4 + y8 := by
  omega

theorem bytesLt_rendering (a b : Nat) (ha : a < 2 ^ 32) (hb : b < 2 ^ 32) :
    bytesLt (errorCodeToStr a).data (errorCodeToStr b).data = true ↔ a < b := by
  rw [errorCodeToStr_data a ha, errorCodeToStr_data b hb]
  rw [bytesLt_hex_cons _ _ (by omega) (by omega), bytesLt_hex_cons _ _ (by omega) (by omega),
    bytesLt_hex_cons _ _ (by omega) (by omega), bytesLt_dot_cons,
    bytesLt_hex_cons _ _ (by omega) (by omega), bytesLt_hex_cons _ _ (by omega) (by omega),
    bytesLt_dot_cons,
    bytesLt_hex_cons _ _ (by omega) (by omega), bytesLt_hex_cons _ _ (by omega) (by omega),
    bytesLt_hex_cons _ _ (by omega) (by omega)]
  simp only [bytesLt, Bool.false_eq_true, and_false, or_false]
  refine (lex_digits _ _ _ _ _ _ _ _ _ _ _ _ _ _ _ _ (by omega) (by omega) (by omega)
    (by omega) (by omega) (by omega) (by omega) (by omega) (by omega) (by omega) (by omega)
    (by omega) (by omega) (by omega)).trans ?_
  rw [← digits_sum a, ← digits_sum b]

/-- C20: the string form is sortable.  For 32-bit codes `a` and `b`, `a < b` exactly when
the rendering of `a` precedes that of `b` in byte-wise lexicographic order; for in-range
triples the renderings sort in the lexicographic order of (service, category, subcode). -/
theorem rendering_sortable :
    (∀ a b, a < 2 ^ 32 → b < 2 ^ 32 →
        (a < b ↔ bytesLt (errorCodeToStr a).data (errorCodeToStr b).data = true))
      ∧ (∀ s1 c1 sub1 s2 c2 sub2, s1 ≤ 4095 → c1 ≤ 255 → sub1 ≤ 4095 →
          s2 ≤ 4095 → c2 ≤ 255 → sub2 ≤ 4095 →
          (bytesLt (errorCodeToStr (getErrorCode s1 c1 sub1)).data
              (errorCodeToStr (getErrorCode s2 c2 sub2)).data = true
            ↔ s1 < s2 ∨ (s1 = s2 ∧ (c1 < c2 ∨ (c1 = c2 ∧ sub1 < sub2))))) := by
  constructor
  · intro a b ha hb
    exact (bytesLt_rendering a b ha hb).symm
  · intro s1 c1 sub1 s2 c2 sub2 h1 h2 h3 h4 h5 h6
    rw [bytesLt_rendering _ _ (getErrorCode_lt _ _ _) (getErrorCode_lt _ _ _),
      getErrorCode_add s1 c1 sub1 (by omega) (by omega) (by omega),
      getErrorCode_add s2 c2 sub2 (by omega) (by omega) (by omega)]
    omega

/-- C20 at the codes `2730` and `43690` and at the triples `(9, 255, 4095)`, `(10, 0, 0)`. -/
theorem rendering_sortable_witness :
    ((2730 < 2 ^ 32 ∧ 43690 < 2 ^ 32) ∧
        (2730 < 43690
          ↔ bytesLt (errorCodeToStr 2730).data (errorCodeToStr 43690).data = true))
      ∧ ((9 ≤ 4095 ∧ 255 ≤ 255 ∧ 4095 ≤ 4095 ∧ 10 ≤ 4095 ∧ 0 ≤ 255 ∧ 0 ≤ 4095) ∧
        (bytesLt (errorCodeToStr (getErrorCode 9 255 4095)).data
            (errorCodeToStr (getErrorCode 10 0 0)).data = true
          ↔ 9 < 10 ∨ (9 = 10 ∧ (255 < 0 ∨ (255 = 0 ∧ 4095 < 0))))) :=
  ⟨⟨by decide, rendering_sortable.1 2730 43690 (by decide) (by decide)⟩,
    ⟨by decide, rendering_sortable.2 9 255 4095 10 0 0 (by decide) (by decide) (by decide)
      (by decide) (by decide) (by decide)⟩⟩

end ErrorCodes
